import Mathlib

/-
Verification of the supertoken-api snapshot engine against its specification.

The development shallowly embeds the TypeScript sources:
  - utils.ts      : queryAllPages, batchFetchBalances, getNetFlowRate
  - snapshot.ts   : takeSnapshot, getTokenHolders, calculateHolderBalance

Conventions of the embedding:
  - monetary / rate quantities are decimal strings in the source, manipulated
    through JavaScript BigInt; they are modelled as Lean Int (exact
    arbitrary-precision integers, matching BigInt).  String comparison with
    the literal "0" on a canonical BigInt string corresponds to Int equality
    with 0.
  - timestamps and block numbers are modelled as Int resp. Nat.
  - JavaScript objects used as string-keyed maps are modelled as association
    lists with lookup; object spread giving precedence to the later source is
    modelled by trying that source first.
  - thrown exceptions are modelled with Except Unit; a Promise.all resolves
    exactly when every member resolves.
  - Array.prototype.sort is a stable sort; it is modelled by List.mergeSort,
    which is stable, with the Boolean ordering derived from the source
    comparator.
-/

namespace SupertokenApi

/-! ## Data model of the balance projection (calculateHolderBalance) -/

/-- A pool membership as delivered by the ledger: whether the member is
connected, the pool per-unit flow rate, and the units held.  Numeric fields
are decimal strings in the source and are modelled as integers. -/
structure PoolMembership where
  isConnected : Bool
  perUnitFlowRate : Int
  units : Int
deriving Repr, DecidableEq

/-- An account-token ledger record as consumed by calculateHolderBalance:
net flow rate, timestamp of the last ledger update, ledger balance at that
update, and the pool memberships of the account.  The nested account.id
is flattened into accountId. -/
structure AccountTokenSnapshot where
  accountId : String
  totalNetFlowRate : Int
  updatedAtTimestamp : Int
  balanceUntilUpdatedAt : Int
  poolMemberships : List PoolMembership
deriving Repr, DecidableEq

/-- The holder record produced by calculateHolderBalance (TokenHolder in the
calculateHolderBalance-era utils.ts).  balance and claimableBalance are
BigInt strings in the source, modelled as integers. -/
structure TokenHolder where
  address : String
  balance : Int
  claimableBalance : Int
  netFlowRate : Int
  lastUpdatedAt : Int
  hasPoolMembership : Bool
deriving Repr, DecidableEq

/-- One step of the pool-membership loop in calculateHolderBalance: a
connected membership accrues into the balance component, a disconnected one
into the claimable component. -/
def gdaStep (deltaT : Int) (acc : Int × Int) (pms : PoolMembership) : Int × Int :=
  if pms.isConnected then
    (acc.1 + pms.perUnitFlowRate * pms.units * deltaT, acc.2)
  else
    (acc.1, acc.2 + pms.perUnitFlowRate * pms.units * deltaT)

/-- Shallow embedding of calculateHolderBalance (snapshot.ts): projects a
ledger record to a balance at currentTimestamp.  deltaT is taken as-is
(it may be negative); the netFlowRate term is skipped when the rate is the
string "0"; connected pool memberships accrue into balance, disconnected
ones into claimableBalance. -/
def calculateHolderBalance (snapshot : AccountTokenSnapshot) (currentTimestamp : Int) :
    TokenHolder :=
  let deltaT : Int := currentTimestamp - snapshot.updatedAtTimestamp
  let balance0 : Int := snapshot.balanceUntilUpdatedAt
  let balance1 : Int :=
    if snapshot.totalNetFlowRate ≠ 0 then
      balance0 + snapshot.totalNetFlowRate * deltaT
    else balance0
  let hasPool : Bool := !snapshot.poolMemberships.isEmpty
  let acc : Int × Int :=
    if hasPool then snapshot.poolMemberships.foldl (gdaStep deltaT) (balance1, 0)
    else (balance1, 0)
  { address := snapshot.accountId
    balance := acc.1
    claimableBalance := acc.2
    netFlowRate := snapshot.totalNetFlowRate
    lastUpdatedAt := snapshot.updatedAtTimestamp
    hasPoolMembership := hasPool }

/-- The record of the worked example in the specification: ledger balance
10^18, net flow rate 10^8, last update at 1700000000, no pool memberships. -/
def exampleRecord : AccountTokenSnapshot :=
  { accountId := "0xholder"
    totalNetFlowRate := 100000000
    updatedAtTimestamp := 1700000000
    balanceUntilUpdatedAt := 1000000000000000000
    poolMemberships := [] }

/-- A record with positive net flow rate whose last ledger update lies in the
future of the reference timestamp used in the C8 theorems (ledger/clock
skew). -/
def skewRecord : AccountTokenSnapshot :=
  { accountId := "0xskew"
    totalNetFlowRate := 100000000
    updatedAtTimestamp := 1700003600
    balanceUntilUpdatedAt := 1000000000000000000
    poolMemberships := [] }

/-! ## Ledger pagination (queryAllPages, utils.ts)

The paginator is generic in the item type; the ledger id is modelled by a
natural number standing for the fixed-format subgraph id string under its
lexicographic order.  The cursor is an Option: none models the initial empty
lastId, which is below every id. -/

/-- One ledger response to a page request: the request may throw (network or
parse error), return a body carrying an errors list, or return a page of
items. -/
inductive PageResponse (α : Type) where
  | thrown : PageResponse α
  | errorList : PageResponse α
  | page : List α → PageResponse α
deriving DecidableEq

/-- The fixed page size of queryAllPages. -/
def pageSize : Nat := 1000

/-- Outcome of queryAllPages: the accumulated items with the number of page
requests issued, a propagated exception (with the number of requests made),
or fuel exhaustion.  Fuel only makes the while-true loop of the source a
structural recursion; it is given large enough in every theorem, and a run
that exhausts it corresponds to a run that never terminates (hence never
publishes). -/
inductive PageOutcome (α : Type) where
  | ok : List α → Nat → PageOutcome α
  | thrown : Nat → PageOutcome α
  | outOfFuel : PageOutcome α
deriving DecidableEq

/-- Loop of queryAllPages: request a page for the current cursor; on a thrown
error propagate the exception; on a response with an errors list stop and
return what was accumulated so far; otherwise append the page, stop if it is
shorter than pageSize, and continue with the last item id as the new cursor
otherwise. -/
def queryAllPagesGo {α ι : Type} (respond : Option ι → PageResponse α) (getId : α → ι) :
    Nat → Option ι → List α → Nat → PageOutcome α
  | 0, _, _, _ => .outOfFuel
  | fuel + 1, cursor, acc, reqs =>
    match respond cursor with
    | .thrown => .thrown (reqs + 1)
    | .errorList => .ok acc (reqs + 1)
    | .page newItems =>
      if newItems.length < pageSize then
        .ok (acc ++ newItems) (reqs + 1)
      else
        queryAllPagesGo respond getId fuel ((newItems.getLast?).map getId)
          (acc ++ newItems) (reqs + 1)

/-- Shallow embedding of queryAllPages (utils.ts): run the pagination loop
from the empty cursor with no accumulated items. -/
def queryAllPages {α ι : Type} (respond : Option ι → PageResponse α) (getId : α → ι)
    (fuel : Nat) : PageOutcome α :=
  queryAllPagesGo respond getId fuel none [] 0

/-- Whether a record lies strictly after the pagination cursor; the empty
initial cursor is below every id. -/
def afterCursor {α : Type} (getId : α → Nat) (cursor : Option Nat) (r : α) : Bool :=
  match cursor with
  | none => true
  | some c => decide (c < getId r)

/-- The well-behaved ledger: it holds records sorted ascending by id and
answers a page request with the first pageSize records whose id is strictly
greater than the cursor.  Modelled from the GraphQL query issued by
takeSnapshot: first 1000, where id_gt cursor, ordered ascending by id. -/
def ledgerRespond {α : Type} (getId : α → Nat) (ledger : List α) (cursor : Option Nat) :
    PageResponse α :=
  .page ((ledger.filter (afterCursor getId cursor)).take pageSize)

/-! ## RPC balance verification (batchFetchBalances, utils.ts) -/

/-- An RPC interaction issued by batchFetchBalances: the chain-head read, or
a balanceOf read for an account pinned to a block number. -/
inductive RpcEvent where
  | getBlockNumber : RpcEvent
  | balanceOf : String → Nat → RpcEvent
deriving Repr, DecidableEq

/-- Fuel-driven splitting of a list into consecutive batches of size n,
mirroring the for loop of batchFetchBalances with step batchSize; the fuel
is instantiated with the list length, which suffices for every n > 0. -/
def chunksGo {α : Type} (n : Nat) : Nat → List α → List (List α)
  | 0, _ => []
  | _, [] => []
  | fuel + 1, xs => xs.take n :: chunksGo n fuel (xs.drop n)

/-- The batches of accounts processed by batchFetchBalances. -/
def chunks {α : Type} (n : Nat) (xs : List α) : List (List α) :=
  chunksGo n xs.length xs

/-- The Promise.all of one batch: resolves with the account/balance pairs of
the whole batch exactly when every balance read resolves, and rejects (none)
as soon as any read fails. -/
def collectBatch (readBalance : String → Nat → Except Unit Int) (h : Nat) :
    List String → Option (List (String × Int))
  | [] => some []
  | a :: rest =>
    match readBalance a h, collectBatch readBalance h rest with
    | .ok v, some ps => some ((a, v) :: ps)
    | _, _ => none

/-- One iteration of the batch loop of batchFetchBalances: on success the
batch results are recorded in the balances map, on failure the error is
logged and nothing of this batch is recorded (the loop continues). -/
def processBatch (readBalance : String → Nat → Except Unit Int) (h : Nat)
    (batch : List String) : List (String × Int) :=
  (collectBatch readBalance h batch).getD []

/-- Shallow embedding of batchFetchBalances (utils.ts): read the chain head
once (throwing, before any balance read, if that fails), then read every
account balance pinned to that head in batches, dropping the results of a
batch in which some read failed.  The second component is the trace of RPC
interactions issued. -/
def batchFetchBalances (pinHead : Except Unit Nat)
    (readBalance : String → Nat → Except Unit Int)
    (accounts : List String) (batchSize : Nat) :
    Except Unit (List (String × Int) × Nat) × List RpcEvent :=
  match pinHead with
  | .error e => (.error e, [RpcEvent.getBlockNumber])
  | .ok h =>
    (.ok (((chunks batchSize accounts).map (processBatch readBalance h)).flatten, h),
     RpcEvent.getBlockNumber ::
       ((chunks batchSize accounts).map
         (fun b => b.map (fun a => RpcEvent.balanceOf a h))).flatten)

/-! ## The snapshot pipeline (takeSnapshot, snapshot.ts)

The current takeSnapshot fetches ledger records whose pool memberships are
filtered by the query to the connected ones, classifies accounts into
subgraph-trusted and needing RPC verification, fetches the needed balances,
assembles the non-zero holders sorted by balance descending and publishes the
snapshot into the cache and the durable file. -/

/-- An account-token record of the current takeSnapshot query
(AccountTokenSnapshot in the current utils.ts; renamed to avoid a clash with
the projection-era record above).  atsId is the ledger id used as pagination
cursor (the account-token id string, modelled as an ordered natural); id is
the account address (account.id). -/
structure AccountRecord where
  atsId : Nat
  id : String
  totalNetFlowRate : Int
  balanceUntilUpdatedAt : Int
  updatedAtBlockNumber : Nat
  poolMemberships : List PoolMembership
deriving Repr, DecidableEq

/-- The view of an account record returned by the ledger: the query of
takeSnapshot requests poolMemberships with where isConnected true, so the
returned record carries only the connected memberships.  Modelled from the
GraphQL where clause of the query string. -/
def ledgerView (s : AccountRecord) : AccountRecord :=
  { s with poolMemberships := s.poolMemberships.filter (fun m => m.isConnected) }

/-- The subgraph answering the pagination of takeSnapshot: pages over the
ledger sorted by atsId, each record passed through ledgerView. -/
def subgraphRespond (ledger : List AccountRecord) (cursor : Option Nat) :
    PageResponse AccountRecord :=
  ledgerRespond (fun s => s.atsId) (ledger.map ledgerView) cursor

/-- Shallow embedding of getNetFlowRate (utils.ts): the total net flow rate
of the record plus the per-unit flow rate times units of each returned pool
membership. -/
def getNetFlowRate (s : AccountRecord) : Int :=
  s.poolMemberships.foldl (fun acc m => acc + m.perUnitFlowRate * m.units)
    s.totalNetFlowRate

/-- The classifier of takeSnapshot: an account can be served from subgraph
data exactly when its record is not newer than the current block, has zero
net flow rate, and carries no pool memberships. -/
def isTrusted (s : AccountRecord) (currentBlockNumber : Nat) : Bool :=
  decide (s.updatedAtBlockNumber ≤ currentBlockNumber) &&
    decide (s.totalNetFlowRate = 0) && s.poolMemberships.isEmpty

/-- The accounts on which takeSnapshot performs RPC balance verification:
those whose record is not trusted. -/
def accountsNeedingRpc (snapshots : List AccountRecord) (head : Nat) : List String :=
  (snapshots.filter (fun s => !(isTrusted s head))).map (fun s => s.id)

/-- The subgraph-trusted balances of takeSnapshot: address to
balanceUntilUpdatedAt for each trusted record. -/
def subgraphBalances (snapshots : List AccountRecord) (head : Nat) :
    List (String × Int) :=
  (snapshots.filter (fun s => isTrusted s head)).map
    (fun s => (s.id, s.balanceUntilUpdatedAt))

/-- A holder record of the published snapshot (TokenHolder in the current
utils.ts; named after the specification to avoid a clash with the
projection-era record above). -/
structure HolderRecord where
  address : String
  balance : Int
  netFlowRate : Int
deriving Repr, DecidableEq

/-- A published snapshot (TokenHolderSnapshot in utils.ts). -/
structure TokenHolderSnapshot where
  updatedAt : Nat
  blockNumber : Nat
  holders : List HolderRecord
deriving Repr, DecidableEq

/-- The combined balance map of takeSnapshot: the spread of subgraphBalances
then rpcBalances gives RPC values precedence; a missing address defaults to
the string "0". -/
def combinedLookup (subB rpcB : List (String × Int)) (a : String) : Int :=
  match rpcB.lookup a with
  | some v => v
  | none => (subB.lookup a).getD 0

/-- One holder object assembled by takeSnapshot from the combined balances
and the flow rate map. -/
def mkHolder (subB rpcB flowRateMap : List (String × Int)) (s : AccountRecord) :
    HolderRecord :=
  { address := s.id
    balance := combinedLookup subB rpcB s.id
    netFlowRate := (flowRateMap.lookup s.id).getD 0 }

/-- The comparator of takeSnapshot as the Boolean order fed to the stable
sort: a may come before b exactly when the comparator does not require a
after b, i.e. when the balance of b is at most the balance of a. -/
def holderLe (a b : HolderRecord) : Bool :=
  decide (b.balance ≤ a.balance)

/-- The nonZeroHolders.sort of takeSnapshot: stable sort by balance
descending. -/
def sortHolders (l : List HolderRecord) : List HolderRecord :=
  l.mergeSort holderLe

/-- The assembly stage of takeSnapshot: build one holder per ledger record
with the combined balance and the flow rate map, remove the holders with
balance "0", and sort by balance descending. -/
def assembleHolders (snapshots : List AccountRecord) (subB rpcB : List (String × Int)) :
    List HolderRecord :=
  let flowRateMap := snapshots.map (fun s => (s.id, getNetFlowRate s))
  let holders := snapshots.map (mkHolder subB rpcB flowRateMap)
  sortHolders (holders.filter (fun h => decide (h.balance ≠ 0)))

/-- The snapshot store: the in-memory cache and the durable file, both keyed
by chain:token and written together at the end of a successful run. -/
abbrev Store := String → Option TokenHolderSnapshot

/-- The cache key of takeSnapshot and getTokenHolders.  The source lowercases
the token address; addresses are handled in lowercase throughout, so the
normalization is omitted. -/
def cacheKey (chainName tokenAddress : String) : String :=
  chainName ++ ":" ++ tokenAddress

/-- Publication of a snapshot: the single replacement of the entry of a key
at the end of a successful run. -/
def publish (store : Store) (key : String) (snap : TokenHolderSnapshot) : Store :=
  fun k => if k = key then some snap else store k

/-- The body of takeSnapshot up to publication as a value: none on a failed
run (thrown pagination, failed chain head read at planning, or failed balance
fetch), some snapshot on a successful run.  The oracles: respond answers the
subgraph pages, planHead the chain head read of the planning stage, pinHead
the chain head read inside batchFetchBalances, readBalance the pinned
balanceOf reads; now is the Date.now of publication time. -/
def takeSnapshotRun (respond : Option Nat → PageResponse AccountRecord) (fuel : Nat)
    (planHead : Except Unit Nat) (pinHead : Except Unit Nat)
    (readBalance : String → Nat → Except Unit Int) (rpcBatchSize : Nat)
    (now : Nat) : Option TokenHolderSnapshot :=
  match queryAllPages respond (fun s => s.atsId) fuel with
  | .thrown _ => none
  | .outOfFuel => none
  | .ok snapshots _ =>
    match planHead with
    | .error _ => none
    | .ok currentBlockNumber =>
      let needing := accountsNeedingRpc snapshots currentBlockNumber
      let subB := subgraphBalances snapshots currentBlockNumber
      if needing.isEmpty then
        some { updatedAt := now
               blockNumber := currentBlockNumber
               holders := assembleHolders snapshots subB [] }
      else
        match (batchFetchBalances pinHead readBalance needing rpcBatchSize).1 with
        | .error _ => none
        | .ok (rpcBalances, blockNumber) =>
          some { updatedAt := now
                 blockNumber := blockNumber
                 holders := assembleHolders snapshots subB rpcBalances }

/-- Shallow embedding of takeSnapshot (snapshot.ts) as a store transition: a
failed run leaves the store untouched, a successful run publishes its
snapshot under the chain:token key as a single replacement. -/
def takeSnapshotModel (chainName tokenAddress : String)
    (respond : Option Nat → PageResponse AccountRecord) (fuel : Nat)
    (planHead : Except Unit Nat) (pinHead : Except Unit Nat)
    (readBalance : String → Nat → Except Unit Int) (rpcBatchSize : Nat)
    (now : Nat) (store : Store) : Store :=
  match takeSnapshotRun respond fuel planHead pinHead readBalance rpcBatchSize now with
  | none => store
  | some snap => publish store (cacheKey chainName tokenAddress) snap

/-- Shallow embedding of getTokenHolders (snapshot.ts): serve the cached
snapshot of the key filtered by minimum balance and sliced by offset and
limit, or the empty snapshot with updatedAt 0 and blockNumber 0 when the key
has no entry. -/
def getTokenHolders (store : Store) (chainName tokenAddress : String)
    (limit : Nat := 100) (offset : Nat := 0) (minBalanceWei : Int := 1) :
    TokenHolderSnapshot :=
  match store (cacheKey chainName tokenAddress) with
  | some cached =>
    { updatedAt := cached.updatedAt
      blockNumber := cached.blockNumber
      holders := ((cached.holders.filter
        (fun h => decide (minBalanceWei ≤ h.balance))).drop offset).take limit }
  | none => { updatedAt := 0, blockNumber := 0, holders := [] }

/-! ## Concrete values used by counterexamples and witnesses -/

/-- An account with a single disconnected pool membership, zero net flow rate
and an old record: the ledger query filters the membership away, so the
classifier sees no memberships. -/
def discRecord : AccountRecord :=
  { atsId := 1
    id := "0xdisc"
    totalNetFlowRate := 0
    balanceUntilUpdatedAt := 42
    updatedAtBlockNumber := 5
    poolMemberships := [{ isConnected := false, perUnitFlowRate := 3, units := 4 }] }

/-- A balance-read oracle that fails for account 0xa and succeeds for the
others. -/
def readEx (a : String) (_blockNumber : Nat) : Except Unit Int :=
  if a = "0xa" then .error () else if a = "0xb" then .ok 7 else .ok 9

/-- A previously published snapshot used by the store counterexamples. -/
def prevSnap : TokenHolderSnapshot :=
  { updatedAt := 111
    blockNumber := 7
    holders := [{ address := "0xprev", balance := 5, netFlowRate := 0 }] }

/-- A store holding prevSnap under the key of chain base and token 0xtok. -/
def storePrev : Store :=
  fun k => if k = cacheKey "base" "0xtok" then some prevSnap else none

/-- A subgraph that reports an errors list on the very first page request. -/
def errorListRespond : Option Nat → PageResponse AccountRecord :=
  fun _ => PageResponse.errorList

/-- A subgraph whose every page request throws. -/
def thrownRespond : Option Nat → PageResponse AccountRecord :=
  fun _ => PageResponse.thrown

/-- An account with a nonzero net flow rate: it always needs RPC
verification. -/
def streamRec : AccountRecord :=
  { atsId := 2
    id := "0xstream"
    totalNetFlowRate := 9
    balanceUntilUpdatedAt := 50
    updatedAtBlockNumber := 5
    poolMemberships := [] }

/-- A subgraph answering every page request with the single record
streamRec. -/
def oneStreamRespond : Option Nat → PageResponse AccountRecord :=
  fun _ => PageResponse.page [streamRec]

/-- A subgraph answering the first page request with a full page of 1000
records and reporting an errors list on the second. -/
def fullPageRespond : Option Nat → PageResponse AccountRecord :=
  fun c =>
    match c with
    | none => PageResponse.page (List.replicate pageSize discRecord)
    | some _ => PageResponse.errorList

/-! ## Theorems -/

/-- Closed form of the pool-membership fold: starting from (b, c) it adds the
connected accruals to the first component and the disconnected accruals to
the second. -/
theorem gdaStep_foldl (deltaT : Int) (ms : List PoolMembership) (b c : Int) :
    ms.foldl (gdaStep deltaT) (b, c) =
      (b + ((ms.filter (fun m => m.isConnected)).map
          (fun m => m.perUnitFlowRate * m.units * deltaT)).sum,
       c + ((ms.filter (fun m => !m.isConnected)).map
          (fun m => m.perUnitFlowRate * m.units * deltaT)).sum) := by
  induction ms generalizing b c with
  | nil => simp
  | cons m rest ih =>
    by_cases hm : m.isConnected <;>
      simp [gdaStep, hm, List.foldl_cons, ih, List.filter_cons] <;> ring

/-- C1: calculateHolderBalance is a pure function of the record and the
reference timestamp; with deltaT = referenceTimestamp - lastUpdateTimestamp
in exact integer arithmetic it returns
balance = ledgerBalance + netFlowRate * deltaT + the sum of
perUnitFlowRate * units * deltaT over connected pool memberships, and
claimableBalance = the same sum over disconnected memberships; in particular
for ledgerBalance 10^18, netFlowRate 10^8, lastUpdateTimestamp 1700000000 and
referenceTimestamp 1700003600 the balance is 1000000360000000000. -/
theorem calculateHolderBalance_spec (s : AccountTokenSnapshot) (t : Int) :
    (calculateHolderBalance s t).balance =
      s.balanceUntilUpdatedAt +
        s.totalNetFlowRate * (t - s.updatedAtTimestamp) +
        ((s.poolMemberships.filter (fun m => m.isConnected)).map
          (fun m => m.perUnitFlowRate * m.units * (t - s.updatedAtTimestamp))).sum ∧
    (calculateHolderBalance s t).claimableBalance =
      ((s.poolMemberships.filter (fun m => !m.isConnected)).map
        (fun m => m.perUnitFlowRate * m.units * (t - s.updatedAtTimestamp))).sum ∧
    (calculateHolderBalance exampleRecord 1700003600).balance = 1000000360000000000 := by
  refine ⟨?_, ?_, by decide⟩ <;>
  · by_cases hp : s.poolMemberships.isEmpty <;>
      by_cases hn : s.totalNetFlowRate = 0 <;>
      simp [calculateHolderBalance, gdaStep_foldl, hp, hn, add_assoc] <;>
      simp [List.isEmpty_iff.mp hp]

/-- C8 counterexample: calculateHolderBalance does not clamp a negative
deltaT.  For skewRecord, whose last update is 3600 seconds after the
reference timestamp 1700000000, the returned balance is strictly below the
balance obtained with deltaT = 0 (reference = last update): accrual is
subtracted from the ledger balance. -/
theorem calculateHolderBalance_no_clamp_cex :
    (calculateHolderBalance skewRecord 1700000000).balance <
      (calculateHolderBalance skewRecord skewRecord.updatedAtTimestamp).balance := by
  decide

/-- C8 amended: deltaT is used as-is rather than clamped: for every record
with no pool memberships, a positive net flow rate and a last update
timestamp strictly greater than the reference timestamp, the projected
balance is strictly below the value obtained with deltaT = 0 (the ledger
balance), because the negative deltaT subtracts accrual. -/
theorem calculateHolderBalance_negative_deltaT (s : AccountTokenSnapshot) (t : Int)
    (hmem : s.poolMemberships = []) (hrate : 0 < s.totalNetFlowRate)
    (hskew : t < s.updatedAtTimestamp) :
    (calculateHolderBalance s t).balance <
      (calculateHolderBalance s s.updatedAtTimestamp).balance := by
  have hne : s.totalNetFlowRate ≠ 0 := ne_of_gt hrate
  have hneg : s.totalNetFlowRate * (t - s.updatedAtTimestamp) < 0 :=
    mul_neg_of_pos_of_neg hrate (by omega)
  simp [calculateHolderBalance, hmem, hne]
  omega

/-- C8 amended, witness: the amended statement applied to skewRecord at
reference timestamp 1700000000. -/
theorem calculateHolderBalance_negative_deltaT_witness :
    (calculateHolderBalance skewRecord 1700000000).balance <
      (calculateHolderBalance skewRecord skewRecord.updatedAtTimestamp).balance :=
  calculateHolderBalance_negative_deltaT skewRecord 1700000000 rfl
    (by decide) (by decide)

/-- In a ledger sorted strictly ascending by id, the records with id greater
than the id of the record at position p are exactly the records after
position p. -/
theorem sorted_filter_gt {α : Type} (getId : α → Nat) (l : List α)
    (hs : l.Pairwise (fun a b => getId a < getId b)) (p : Nat) (hp : p < l.length) :
    l.filter (fun r => decide (getId (l.get ⟨p, hp⟩) < getId r)) = l.drop (p + 1) := by
  induction l generalizing p with
  | nil => simp at hp
  | cons x xs ih =>
    rcases List.pairwise_cons.mp hs with ⟨hx, hxs⟩
    cases p with
    | zero =>
      simp only [List.get, List.filter_cons, List.drop_succ_cons, List.drop_zero]
      rw [if_neg (by simp), List.filter_eq_self.mpr]
      intro r hr
      simpa using hx r hr
    | succ q =>
      have hq : q < xs.length := by simpa using hp
      have hmem : xs.get ⟨q, hq⟩ ∈ xs := List.get_mem xs q hq
      simp only [List.get, List.filter_cons, List.drop_succ_cons]
      rw [if_neg (by simp; exact Nat.le_of_lt (hx _ hmem)), ih hxs q hq]

/-- Invariant of the pagination loop over a sorted ledger: if the records
after the current cursor are exactly the records from position q on, and
enough fuel remains, the loop returns the accumulated items followed by all
remaining records, using one request per full page plus one final short
page. -/
theorem queryAllPagesGo_ledger {α : Type} (getId : α → Nat) (ledger : List α)
    (hs : ledger.Pairwise (fun a b => getId a < getId b)) :
    ∀ (fuel q : Nat) (cursor : Option Nat) (acc : List α) (reqs : Nat),
      ledger.filter (afterCursor getId cursor) = ledger.drop q →
      (ledger.length - q) / pageSize < fuel →
      queryAllPagesGo (ledgerRespond getId ledger) getId fuel cursor acc reqs =
        .ok (acc ++ ledger.drop q) (reqs + ((ledger.length - q) / pageSize + 1)) := by
  intro fuel
  induction fuel with
  | zero => intro q cursor acc reqs _ hfuel; exact absurd hfuel (Nat.not_lt_zero _)
  | succ fuel ih =>
    intro q cursor acc reqs hq hfuel
    have hlen : (ledger.drop q).length = ledger.length - q := List.length_drop q ledger
    by_cases hshort : ledger.length - q < pageSize
    · have htake : (ledger.drop q).take pageSize = ledger.drop q :=
        List.take_of_length_le (by omega)
      have hdiv : (ledger.length - q) / pageSize = 0 := Nat.div_eq_of_lt hshort
      simp only [queryAllPagesGo, ledgerRespond, hq, htake, hdiv]
      rw [if_pos (by omega)]
    · have hlen1000 : ((ledger.drop q).take pageSize).length = pageSize := by
        rw [List.length_take]; omega
      have hpos : q + (pageSize - 1) < ledger.length := by
        have : 0 < pageSize := by simp [pageSize]
        omega
      have hlast : ((ledger.drop q).take pageSize).getLast? =
          some (ledger.get ⟨q + (pageSize - 1), hpos⟩) := by
        rw [List.getLast?_eq_getElem?, hlen1000, List.getElem?_take,
          if_pos (by simp [pageSize]), List.getElem?_drop,
          List.getElem?_eq_getElem (by omega)]
        simp [List.get_eq_getElem]
      have hfilter : ledger.filter
          (afterCursor getId (some (getId (ledger.get ⟨q + (pageSize - 1), hpos⟩)))) =
          ledger.drop (q + pageSize) := by
        have := sorted_filter_gt getId ledger hs (q + (pageSize - 1)) hpos
        have hps : 0 < pageSize := by simp [pageSize]
        have harith : q + (pageSize - 1) + 1 = q + pageSize := by omega
        rw [harith] at this
        rw [← this]
        rfl
      have hstep := ih (q + pageSize)
        (some (getId (ledger.get ⟨q + (pageSize - 1), hpos⟩)))
        (acc ++ (ledger.drop q).take pageSize) (reqs + 1) hfilter
        (by
          have h1000 : pageSize ≤ ledger.length - q := by omega
          have := Nat.div_eq_sub_div (b := pageSize) (a := ledger.length - q)
            (by simp [pageSize]) h1000
          simp only [pageSize] at this hfuel ⊢
          omega)
      simp only [queryAllPagesGo, ledgerRespond, hq]
      rw [if_neg (by omega), hlast]
      simp only [Option.map]
      rw [hstep]
      have hjoin : (acc ++ (ledger.drop q).take pageSize) ++ ledger.drop (q + pageSize) =
          acc ++ ledger.drop q := by
        rw [List.append_assoc]
        congr 1
        rw [← List.drop_drop, List.take_append_drop]
      rw [hjoin]
      have h1000 : pageSize ≤ ledger.length - q := by omega
      have := Nat.div_eq_sub_div (b := pageSize) (a := ledger.length - q)
        (by simp [pageSize]) h1000
      congr 1
      simp only [pageSize] at this ⊢
      omega

/-- C4: queryAllPages over a ledger sorted strictly ascending by id uses the
fixed page size 1000, requests each page strictly after the last seen id,
terminates on the first page shorter than 1000, returns every ledger record
in ascending id order, and issues exactly length / 1000 + 1 page requests
(two requests returning 1001 records for a 1001-record ledger). -/
theorem queryAllPages_ledger_spec {α : Type} (getId : α → Nat) (ledger : List α)
    (hs : ledger.Pairwise (fun a b => getId a < getId b)) (fuel : Nat)
    (hfuel : ledger.length / pageSize < fuel) :
    queryAllPages (ledgerRespond getId ledger) getId fuel =
      .ok ledger (ledger.length / pageSize + 1) := by
  have h := queryAllPagesGo_ledger getId ledger hs fuel 0 none [] 0
    (by simp [afterCursor]) (by simpa using hfuel)
  simpa [queryAllPages] using h

/-- C4 witness: a ledger of exactly 1001 records (ids 0..1000) is returned
in full, in ascending order, with exactly two page requests. -/
theorem queryAllPages_ledger_spec_witness :
    queryAllPages (ledgerRespond (fun r => r) (List.range 1001)) (fun r => r) 2 =
      .ok (List.range 1001) 2 ∧ (List.range 1001).length = 1001 := by
  constructor
  · have h := queryAllPages_ledger_spec (fun r => r) (List.range 1001)
      (by simpa using List.pairwise_lt_range 1001) 2
      (by rw [List.length_range]; norm_num [pageSize])
    rw [List.length_range] at h
    norm_num [pageSize] at h
    exact h
  · exact List.length_range 1001

/-- A lookup misses when no key of the association list equals the query. -/
theorem lookup_eq_none_of_forall {β : Type} (l : List (String × β)) (a : String)
    (h : ∀ p ∈ l, p.1 ≠ a) : l.lookup a = none := by
  induction l with
  | nil => rfl
  | cons p rest ih =>
    have hp : (a == p.1) = false :=
      beq_eq_false_iff_ne.mpr (fun hh => h p (by simp) hh.symm)
    simp only [List.lookup, hp]
    exact ih (fun q hq => h q (by simp [hq]))

/-- A lookup in an association list with distinct keys finds the value of any
member pair. -/
theorem lookup_eq_some_of_mem {β : Type} (l : List (String × β))
    (hnd : (l.map Prod.fst).Nodup) (a : String) (v : β) (hmem : (a, v) ∈ l) :
    l.lookup a = some v := by
  induction l with
  | nil => simp at hmem
  | cons p rest ih =>
    rcases List.mem_cons.mp hmem with h | h
    · rw [← h]
      simp [List.lookup]
    · have hne : (a == p.1) = false := by
        refine beq_eq_false_iff_ne.mpr (fun hh => ?_)
        have h1 : p.1 ∉ rest.map Prod.fst := (List.nodup_cons.mp hnd).1
        exact h1 (hh ▸ List.mem_map.mpr ⟨(a, v), h, rfl⟩)
      simp only [List.lookup, hne]
      exact ih (List.nodup_cons.mp hnd).2 h

/-- A successful lookup comes from a member pair with the looked-up key. -/
theorem mem_of_lookup_eq_some {β : Type} (l : List (String × β)) (a : String) (v : β)
    (h : l.lookup a = some v) : (a, v) ∈ l := by
  induction l with
  | nil => simp [List.lookup] at h
  | cons p rest ih =>
    by_cases hk : a == p.1
    · have : p = (a, v) := by
        have hfst : a = p.1 := by simpa using hk
        simp only [List.lookup, hk] at h
        cases p
        simp_all
      simp [this]
    · simp only [List.lookup, Bool.not_eq_true] at h hk
      rw [hk] at h
      exact List.mem_cons_of_mem p (ih h)

/-- C10: for a chain:token key with no published or loaded snapshot,
getTokenHolders returns updatedAt 0, blockNumber 0 and an empty holder list,
for every limit, offset and minimum balance; the store lookup short-circuits
before any holder processing, so an unknown key never fails. -/
theorem getTokenHolders_unknown_key (store : Store) (chainName tokenAddress : String)
    (hnone : store (cacheKey chainName tokenAddress) = none)
    (limit offset : Nat) (minBalanceWei : Int) :
    getTokenHolders store chainName tokenAddress limit offset minBalanceWei =
      { updatedAt := 0, blockNumber := 0, holders := [] } := by
  simp [getTokenHolders, hnone]

/-- C10 witness: the empty store at the key of chain base and token 0xtok. -/
theorem getTokenHolders_unknown_key_witness :
    (fun _ => none : Store) (cacheKey "base" "0xtok") = none ∧
    getTokenHolders (fun _ => none) "base" "0xtok" 100 0 1 =
      { updatedAt := 0, blockNumber := 0, holders := [] } :=
  ⟨rfl, getTokenHolders_unknown_key (fun _ => none) "base" "0xtok" rfl 100 0 1⟩

/-- C3 counterexample: discRecord has a pool membership (a disconnected one),
zero net flow rate and a record older than the chain head 10, so by the claim
it must not be Trusted; but the ledger query returns only connected
memberships, so the classifier sees none and marks the account Trusted. -/
theorem isTrusted_disconnected_cex :
    isTrusted (ledgerView discRecord) 10 = true ∧ discRecord.poolMemberships ≠ [] := by
  decide

/-- C3 amended: the classifier marks a ledger record Trusted iff its net flow
rate is zero, it has no connected pool memberships (disconnected memberships
are filtered away by the ledger query and do not affect classification), and
its last-update block is at most the chain head; every Trusted account is
absent from the accounts sent to RPC verification, and its published balance
comes from its ledger balance for any RPC result covering only the
verification set. -/
theorem classify_trusted_spec :
    (∀ (s : AccountRecord) (head : Nat),
      isTrusted (ledgerView s) head = true ↔
        (s.totalNetFlowRate = 0 ∧
          s.poolMemberships.filter (fun m => m.isConnected) = [] ∧
          s.updatedAtBlockNumber ≤ head)) ∧
    (∀ (snapshots : List AccountRecord) (head : Nat) (s : AccountRecord),
      (snapshots.map (fun x => x.id)).Nodup → s ∈ snapshots →
      isTrusted s head = true →
      s.id ∉ accountsNeedingRpc snapshots head ∧
      ∀ rpcB : List (String × Int),
        (∀ p ∈ rpcB, p.1 ∈ accountsNeedingRpc snapshots head) →
        combinedLookup (subgraphBalances snapshots head) rpcB s.id =
          s.balanceUntilUpdatedAt) := by
  constructor
  · intro s head
    simp [isTrusted, ledgerView, List.isEmpty_iff, and_comm, and_assoc]
    tauto
  · intro snapshots head s hnd hs htr
    have hnotin : s.id ∉ accountsNeedingRpc snapshots head := by
      intro hin
      rcases List.mem_map.mp hin with ⟨u, hu, huid⟩
      rcases List.mem_filter.mp hu with ⟨humem, hunot⟩
      have : u = s := List.inj_on_of_nodup_map hnd humem hs huid
      rw [this, htr] at hunot
      simp at hunot
    refine ⟨hnotin, ?_⟩
    intro rpcB hcov
    have hrpc : rpcB.lookup s.id = none := by
      refine lookup_eq_none_of_forall rpcB s.id (fun p hp hkey => ?_)
      exact hnotin (hkey ▸ hcov p hp)
    have hsubnd : ((subgraphBalances snapshots head).map Prod.fst).Nodup := by
      have hmapeq : (subgraphBalances snapshots head).map Prod.fst =
          (snapshots.filter (fun u => isTrusted u head)).map (fun u => u.id) := by
        simp [subgraphBalances, List.map_map]
      rw [hmapeq]
      exact List.Nodup.sublist
        (List.Sublist.map _ (List.filter_sublist snapshots)) hnd
    have hsubmem : (s.id, s.balanceUntilUpdatedAt) ∈ subgraphBalances snapshots head :=
      List.mem_map.mpr ⟨s, List.mem_filter.mpr ⟨hs, htr⟩, rfl⟩
    have hsub := lookup_eq_some_of_mem _ hsubnd _ _ hsubmem
    simp [combinedLookup, hrpc, hsub]

/-- C3 amended, witness: the classifier equivalence at the viewed discRecord
and chain head 10, and the planner behavior on the one-record snapshot list
containing it, with the empty RPC result. -/
theorem classify_trusted_spec_witness :
    (isTrusted (ledgerView discRecord) 10 = true ↔
      (discRecord.totalNetFlowRate = 0 ∧
        discRecord.poolMemberships.filter (fun m => m.isConnected) = [] ∧
        discRecord.updatedAtBlockNumber ≤ 10)) ∧
    (ledgerView discRecord).id ∉ accountsNeedingRpc [ledgerView discRecord] 10 ∧
    combinedLookup (subgraphBalances [ledgerView discRecord] 10) []
      (ledgerView discRecord).id = (ledgerView discRecord).balanceUntilUpdatedAt := by
  refine ⟨classify_trusted_spec.1 discRecord 10, ?_, ?_⟩
  · exact (classify_trusted_spec.2 [ledgerView discRecord] 10 (ledgerView discRecord)
      (by decide) (by decide) (by decide)).1
  · exact (classify_trusted_spec.2 [ledgerView discRecord] 10 (ledgerView discRecord)
      (by decide) (by decide) (by decide)).2 [] (by simp)

/-- A resolved batch Promise.all pairs exactly the batch accounts, in order,
with their successfully read values. -/
theorem collectBatch_some (readBalance : String → Nat → Except Unit Int) (h : Nat) :
    ∀ (b : List String) (ps : List (String × Int)),
      collectBatch readBalance h b = some ps →
      ps.map Prod.fst = b ∧ ∀ p ∈ ps, readBalance p.1 h = .ok p.2 := by
  intro b
  induction b with
  | nil =>
    intro ps hps
    simp only [collectBatch, Option.some_inj] at hps
    subst hps
    simp
  | cons a rest ih =>
    intro ps hps
    cases hread : readBalance a h with
    | error e => simp [collectBatch, hread] at hps
    | ok v =>
      cases hrest : collectBatch readBalance h rest with
      | none => simp [collectBatch, hread, hrest] at hps
      | some qs =>
        simp only [collectBatch, hread, hrest, Option.some_inj] at hps
        subst hps
        rcases ih qs hrest with ⟨hkeys, hvals⟩
        refine ⟨by simp [hkeys], ?_⟩
        intro p hp
        rcases List.mem_cons.mp hp with rfl | hp2
        · simpa using hread
        · exact hvals p hp2

/-- A batch in which every read succeeds resolves. -/
theorem collectBatch_isSome (readBalance : String → Nat → Except Unit Int) (h : Nat) :
    ∀ (b : List String), (∀ x ∈ b, ∃ v, readBalance x h = .ok v) →
      ∃ ps, collectBatch readBalance h b = some ps := by
  intro b
  induction b with
  | nil => intro _; exact ⟨[], rfl⟩
  | cons a rest ih =>
    intro hall
    rcases hall a (by simp) with ⟨v, hv⟩
    rcases ih (fun x hx => hall x (by simp [hx])) with ⟨qs, hqs⟩
    exact ⟨(a, v) :: qs, by simp [collectBatch, hv, hqs]⟩

/-- A batch containing a failing read rejects. -/
theorem collectBatch_none (readBalance : String → Nat → Except Unit Int) (h : Nat) :
    ∀ (b : List String), (∃ x ∈ b, readBalance x h = .error ()) →
      collectBatch readBalance h b = none := by
  intro b
  induction b with
  | nil => intro hex; simp at hex
  | cons a rest ih =>
    intro hex
    rcases hex with ⟨x, hx, hfail⟩
    rcases List.mem_cons.mp hx with rfl | hx2
    · simp [collectBatch, hfail]
    · have hr := ih ⟨x, hx2, hfail⟩
      cases hread : readBalance a h <;> simp [collectBatch, hread, hr]

/-- Every key recorded by one batch belongs to that batch. -/
theorem processBatch_keys (readBalance : String → Nat → Except Unit Int) (h : Nat)
    (b : List String) : ∀ p ∈ processBatch readBalance h b, p.1 ∈ b := by
  intro p hp
  cases hcb : collectBatch readBalance h b with
  | none => simp [processBatch, hcb] at hp
  | some ps =>
    rcases collectBatch_some readBalance h b ps hcb with ⟨hkeys, _⟩
    rw [processBatch, hcb] at hp
    exact hkeys ▸ List.mem_map.mpr ⟨p, hp, rfl⟩

/-- With positive batch size and enough fuel, the batches cover exactly the
account list. -/
theorem chunksGo_flatten {α : Type} (n : Nat) (hn : 0 < n) :
    ∀ (fuel : Nat) (xs : List α), xs.length ≤ fuel →
      (chunksGo n fuel xs).flatten = xs := by
  intro fuel
  induction fuel with
  | zero =>
    intro xs hlen
    rw [List.length_eq_zero.mp (Nat.le_zero.mp hlen)]
    rfl
  | succ fuel ih =>
    intro xs hlen
    cases xs with
    | nil => rfl
    | cons x rest =>
      rw [show chunksGo n (fuel + 1) (x :: rest) =
            (x :: rest).take n :: chunksGo n fuel ((x :: rest).drop n) from rfl,
        List.flatten_cons,
        ih ((x :: rest).drop n)
          (by rw [List.length_drop]; simp only [List.length_cons] at hlen ⊢; omega),
        List.take_append_drop]

/-- The batches of batchFetchBalances cover exactly the account list. -/
theorem chunks_flatten {α : Type} (n : Nat) (hn : 0 < n) (xs : List α) :
    (chunks n xs).flatten = xs :=
  chunksGo_flatten n hn xs.length xs (Nat.le_refl _)

/-- Looking up an account of one batch in the combined balances map of all
batches is the same as looking it up in the results of its own batch,
provided the batches are pairwise disjoint and duplicate free. -/
theorem processBatches_lookup (readBalance : String → Nat → Except Unit Int) (h : Nat) :
    ∀ (bs : List (List String)), bs.flatten.Nodup →
      ∀ b ∈ bs, ∀ a ∈ b,
        ((bs.map (processBatch readBalance h)).flatten).lookup a =
          (processBatch readBalance h b).lookup a := by
  intro bs
  induction bs with
  | nil => simp
  | cons b0 rest ih =>
    intro hnd b hb a ha
    rw [List.flatten_cons] at hnd
    rcases List.nodup_append.mp hnd with ⟨hb0, hrest, hdisj⟩
    simp only [List.map_cons, List.flatten_cons]
    rw [List.lookup_append]
    rcases List.mem_cons.mp hb with rfl | hbrest
    · cases hl : (processBatch readBalance h b).lookup a with
      | some v => simp [hl]
      | none =>
        simp only [hl, Option.or]
        refine lookup_eq_none_of_forall _ a (fun p hp hkey => ?_)
        rcases List.mem_flatten.mp hp with ⟨l, hl2, hpl⟩
        rcases List.mem_map.mp hl2 with ⟨b2, hb2, rfl⟩
        have hp1 : p.1 ∈ rest.flatten :=
          List.mem_flatten.mpr ⟨b2, hb2, processBatch_keys readBalance h b2 p hpl⟩
        exact hdisj ha (hkey ▸ hp1)
    · have hnot0 : a ∉ b0 := fun hina =>
        hdisj hina (List.mem_flatten.mpr ⟨b, hbrest, ha⟩)
      have hl0 : (processBatch readBalance h b0).lookup a =
          none :=
        lookup_eq_none_of_forall _ a
          (fun p hp hkey => hnot0 (hkey ▸ processBatch_keys readBalance h b0 p hp))
      rw [hl0]
      simp only [Option.or]
      exact ih hrest b hbrest a ha

/-- C6: batchFetchBalances reads the chain head exactly once, before issuing
any balance read; that head is the pinned block of every balanceOf it issues;
a failed chain-head read makes the whole call throw with no balance read
issued, and the run then publishes nothing. -/
theorem batchFetchBalances_pin_spec :
    (∀ (readBalance : String → Nat → Except Unit Int) (accounts : List String)
        (batchSize : Nat),
      batchFetchBalances (.error ()) readBalance accounts batchSize =
        (.error (), [RpcEvent.getBlockNumber])) ∧
    (∀ (h : Nat) (readBalance : String → Nat → Except Unit Int)
        (accounts : List String) (batchSize : Nat),
      ((batchFetchBalances (.ok h) readBalance accounts batchSize).2).head? =
        some RpcEvent.getBlockNumber ∧
      ((batchFetchBalances (.ok h) readBalance accounts batchSize).2).count
        RpcEvent.getBlockNumber = 1 ∧
      (∀ e ∈ ((batchFetchBalances (.ok h) readBalance accounts batchSize).2).tail,
        ∃ a, e = RpcEvent.balanceOf a h)) ∧
    (∀ (chainName tokenAddress : String)
        (respond : Option Nat → PageResponse AccountRecord) (fuel : Nat)
        (readBalance : String → Nat → Except Unit Int) (rpcBatchSize now : Nat)
        (store : Store) (snapshots : List AccountRecord) (reqs head : Nat),
      queryAllPages respond (fun s => s.atsId) fuel = .ok snapshots reqs →
      (accountsNeedingRpc snapshots head).isEmpty = false →
      takeSnapshotModel chainName tokenAddress respond fuel (.ok head) (.error ())
        readBalance rpcBatchSize now store = store) := by
  refine ⟨fun readBalance accounts batchSize => rfl, ?_, ?_⟩
  · intro h readBalance accounts batchSize
    have htail : ∀ e ∈ ((chunks batchSize accounts).map
        (fun b => b.map (fun a => RpcEvent.balanceOf a h))).flatten,
        ∃ a, e = RpcEvent.balanceOf a h := by
      intro e he
      rcases List.mem_flatten.mp he with ⟨l, hl, hel⟩
      rcases List.mem_map.mp hl with ⟨b, _, rfl⟩
      rcases List.mem_map.mp hel with ⟨a, _, rfl⟩
      exact ⟨a, rfl⟩
    refine ⟨rfl, ?_, ?_⟩
    · show List.count _ (RpcEvent.getBlockNumber :: _) = 1
      rw [List.count_cons_self]
      have : List.count RpcEvent.getBlockNumber (((chunks batchSize accounts).map
          (fun b => b.map (fun a => RpcEvent.balanceOf a h))).flatten) = 0 := by
        rw [List.count_eq_zero]
        intro hmem
        rcases htail _ hmem with ⟨a, ha⟩
        simp at ha
      rw [this]
    · exact htail
  · intro chainName tokenAddress respond fuel readBalance rpcBatchSize now store
      snapshots reqs head hq hneed
    simp [takeSnapshotModel, takeSnapshotRun, hq, hneed, batchFetchBalances]

/-- C6 witness: the chain-head-failure equation at a concrete call; the trace
shape at a concrete successful pin; and the unchanged store for a concrete
run whose verification set is nonempty while the pinned head read fails. -/
theorem batchFetchBalances_pin_spec_witness :
    batchFetchBalances (.error ()) readEx [] 2 =
      (.error (), [RpcEvent.getBlockNumber]) ∧
    ((batchFetchBalances (.ok 5) readEx ["0xa"] 1).2).head? =
      some RpcEvent.getBlockNumber ∧
    takeSnapshotModel "base" "0xtok" oneStreamRespond 1 (.ok 10) (.error ())
      readEx 100 222 storePrev = storePrev := by
  refine ⟨batchFetchBalances_pin_spec.1 readEx [] 2,
    (batchFetchBalances_pin_spec.2.1 5 readEx ["0xa"] 1).1,
    batchFetchBalances_pin_spec.2.2 "base" "0xtok" oneStreamRespond 1 readEx 100 222
      storePrev [streamRec] 1 10 (by decide) (by decide)⟩

/-- C7 counterexample: with batch size 2 and accounts 0xa, 0xb, 0xc, the read
of 0xa fails while the read of its batchmate 0xb succeeds with value 7; yet
the returned balance set contains only 0xc: the failed account discards its
whole batch, so the surviving batchmate does not keep its verified balance. -/
theorem batchFetchBalances_batchmate_cex :
    readEx "0xb" 5 = .ok 7 ∧
    (batchFetchBalances (.ok 5) readEx ["0xa", "0xb", "0xc"] 2).1 =
      .ok ([("0xc", 9)], 5) :=
  ⟨rfl, rfl⟩

/-- C7 amended: an account whose balance read fails does not abort the run
(the call still returns a balance set and the pinned block); the accounts of
a fully successful batch all keep their verified balances; every account of a
batch containing a failing read is excluded from the balance set (the whole
batch is dropped, not only the failing account); and with working chain-head
reads the run still publishes a snapshot. -/
theorem batchFetchBalances_account_failure_spec :
    (∀ (h : Nat) (readBalance : String → Nat → Except Unit Int)
        (accounts : List String) (batchSize : Nat),
      ∃ balances, (batchFetchBalances (.ok h) readBalance accounts batchSize).1 =
        .ok (balances, h)) ∧
    (∀ (h : Nat) (readBalance : String → Nat → Except Unit Int)
        (accounts : List String) (batchSize : Nat)
        (balances : List (String × Int)),
      0 < batchSize → accounts.Nodup →
      (batchFetchBalances (.ok h) readBalance accounts batchSize).1 =
        .ok (balances, h) →
      ∀ b ∈ chunks batchSize accounts, ∀ a ∈ b,
        ((∀ x ∈ b, ∃ v, readBalance x h = .ok v) →
          ∃ v, readBalance a h = .ok v ∧ balances.lookup a = some v) ∧
        ((∃ x ∈ b, readBalance x h = .error ()) → balances.lookup a = none)) ∧
    (∀ (chainName tokenAddress : String)
        (respond : Option Nat → PageResponse AccountRecord) (fuel : Nat)
        (readBalance : String → Nat → Except Unit Int)
        (rpcBatchSize now : Nat) (store : Store)
        (snapshots : List AccountRecord) (reqs head pin : Nat),
      queryAllPages respond (fun s => s.atsId) fuel = .ok snapshots reqs →
      ∃ snap,
        takeSnapshotRun respond fuel (.ok head) (.ok pin) readBalance rpcBatchSize
          now = some snap ∧
        takeSnapshotModel chainName tokenAddress respond fuel (.ok head) (.ok pin)
          readBalance rpcBatchSize now store =
          publish store (cacheKey chainName tokenAddress) snap) := by
  refine ⟨fun h readBalance accounts batchSize => ⟨_, rfl⟩, ?_, ?_⟩
  · intro h readBalance accounts batchSize balances hbs hnd hbal b hb a ha
    have hflat : (chunks batchSize accounts).flatten = accounts :=
      chunks_flatten batchSize hbs accounts
    have hndflat : (chunks batchSize accounts).flatten.Nodup := by
      rw [hflat]; exact hnd
    have hbal2 : balances = ((chunks batchSize accounts).map
        (processBatch readBalance h)).flatten := by
      have := hbal
      simp only [batchFetchBalances] at this
      exact (by
        injection this with h1
        injection h1 with h2 h3
        exact h2.symm)
    have hlk := processBatches_lookup readBalance h (chunks batchSize accounts)
      hndflat b hb a ha
    constructor
    · intro hall
      rcases collectBatch_isSome readBalance h b hall with ⟨ps, hps⟩
      rcases collectBatch_some readBalance h b ps hps with ⟨hkeys, hvals⟩
      have hbnd : b.Nodup :=
        List.Nodup.sublist (List.sublist_flatten_of_mem hb) hndflat
      have hpsnd : (ps.map Prod.fst).Nodup := hkeys ▸ hbnd
      have hamem : a ∈ ps.map Prod.fst := hkeys ▸ ha
      rcases List.mem_map.mp hamem with ⟨p, hpmem, hpfst⟩
      refine ⟨p.2, by rw [← hpfst]; exact hvals p hpmem, ?_⟩
      rw [hbal2, hlk, processBatch, hps]
      exact lookup_eq_some_of_mem ps hpsnd a p.2
        (by rw [← hpfst]; exact (by simpa using hpmem))
    · intro hfail
      rw [hbal2, hlk, processBatch, collectBatch_none readBalance h b hfail]
      rfl
  · intro chainName tokenAddress respond fuel readBalance rpcBatchSize now store
      snapshots reqs head pin hq
    by_cases hneed : (accountsNeedingRpc snapshots head).isEmpty
    · refine ⟨TokenHolderSnapshot.mk now head
          (assembleHolders snapshots (subgraphBalances snapshots head) []),
          ?_, ?_⟩ <;>
        simp [takeSnapshotModel, takeSnapshotRun, hq, hneed]
    · refine ⟨TokenHolderSnapshot.mk now pin
          (assembleHolders snapshots (subgraphBalances snapshots head)
            (((chunks rpcBatchSize (accountsNeedingRpc snapshots head)).map
              (processBatch readBalance pin)).flatten)), ?_, ?_⟩ <;>
        simp [takeSnapshotModel, takeSnapshotRun, hq, hneed, batchFetchBalances]

/-- C7 amended, witness: the concrete failing call of the counterexample: the
call still returns with pinned block 5; the fully successful batch of 0xc
keeps its value 9; both accounts of the failed batch of 0xa and 0xb are
excluded; and the concrete one-record run still publishes. -/
theorem batchFetchBalances_account_failure_spec_witness :
    (∃ balances, (batchFetchBalances (.ok 5) readEx ["0xa", "0xb", "0xc"] 2).1 =
      .ok (balances, 5)) ∧
    (∃ v, readEx "0xc" 5 = .ok v ∧
      List.lookup "0xc" [("0xc", (9 : Int))] = some v) ∧
    List.lookup "0xb" [("0xc", (9 : Int))] = none ∧
    (∃ snap,
      takeSnapshotRun oneStreamRespond 1 (.ok 10) (.ok 10) readEx 100 222 =
        some snap ∧
      takeSnapshotModel "base" "0xtok" oneStreamRespond 1 (.ok 10) (.ok 10)
        readEx 100 222 storePrev =
        publish storePrev (cacheKey "base" "0xtok") snap) := by
  refine ⟨batchFetchBalances_account_failure_spec.1 5 readEx ["0xa", "0xb", "0xc"] 2,
    ?_, ?_,
    batchFetchBalances_account_failure_spec.2.2 "base" "0xtok" oneStreamRespond 1
      readEx 100 222 storePrev [streamRec] 1 10 10 (by decide)⟩
  · exact (batchFetchBalances_account_failure_spec.2.1 5 readEx ["0xa", "0xb", "0xc"] 2
      [("0xc", 9)] (by decide) (by decide) rfl ["0xc"] (by decide) "0xc" (by decide)).1
      (fun x hx => by
        rcases List.mem_singleton.mp hx with rfl
        exact ⟨9, rfl⟩)
  · exact (batchFetchBalances_account_failure_spec.2.1 5 readEx ["0xa", "0xb", "0xc"] 2
      [("0xc", 9)] (by decide) (by decide) rfl ["0xa", "0xb"] (by decide) "0xb"
      (by decide)).2 ⟨"0xa", by decide, rfl⟩

/-- The assembly of an empty record list publishes an empty holder list. -/
theorem assembleHolders_nil (subB rpcB : List (String × Int)) :
    assembleHolders [] subB rpcB = [] := by
  simp [assembleHolders, sortHolders, List.mergeSort_nil]

/-- C9: a failed run leaves the snapshot store unchanged for its chain:token
key; a successful run writes the cache and the durable file as one single
replacement at its key, touching no other key; and a run only publishes after
every stage has succeeded: pagination returned its records, the planning
chain-head read succeeded, and, whenever verification was needed, the balance
fetch returned. -/
theorem takeSnapshot_store_spec (chainName tokenAddress : String)
    (respond : Option Nat → PageResponse AccountRecord) (fuel : Nat)
    (planHead pinHead : Except Unit Nat)
    (readBalance : String → Nat → Except Unit Int) (rpcBatchSize now : Nat)
    (store : Store) :
    (takeSnapshotRun respond fuel planHead pinHead readBalance rpcBatchSize now =
        none →
      takeSnapshotModel chainName tokenAddress respond fuel planHead pinHead
        readBalance rpcBatchSize now store = store) ∧
    (∀ snap,
      takeSnapshotRun respond fuel planHead pinHead readBalance rpcBatchSize now =
          some snap →
      takeSnapshotModel chainName tokenAddress respond fuel planHead pinHead
          readBalance rpcBatchSize now store =
        publish store (cacheKey chainName tokenAddress) snap ∧
      (∀ k, k ≠ cacheKey chainName tokenAddress →
        takeSnapshotModel chainName tokenAddress respond fuel planHead pinHead
          readBalance rpcBatchSize now store k = store k) ∧
      ∃ snapshots reqs head,
        queryAllPages respond (fun s => s.atsId) fuel = .ok snapshots reqs ∧
        planHead = .ok head ∧
        ((accountsNeedingRpc snapshots head).isEmpty = false →
          ∃ result, (batchFetchBalances pinHead readBalance
            (accountsNeedingRpc snapshots head) rpcBatchSize).1 = .ok result)) := by
  constructor
  · intro hrun
    simp [takeSnapshotModel, hrun]
  · intro snap hrun
    refine ⟨by simp [takeSnapshotModel, hrun], ?_, ?_⟩
    · intro k hk
      simp [takeSnapshotModel, hrun, publish, hk]
    · cases hq : queryAllPages respond (fun s => s.atsId) fuel with
      | thrown n => simp [takeSnapshotRun, hq] at hrun
      | outOfFuel => simp [takeSnapshotRun, hq] at hrun
      | ok snapshots reqs =>
        cases hplan : planHead with
        | error e => simp [takeSnapshotRun, hq, hplan] at hrun
        | ok head =>
          refine ⟨snapshots, reqs, head, rfl, rfl, ?_⟩
          intro hneed
          cases hbf : (batchFetchBalances pinHead readBalance
              (accountsNeedingRpc snapshots head) rpcBatchSize).1 with
          | error e => simp [takeSnapshotRun, hq, hplan, hneed, hbf] at hrun
          | ok result => exact ⟨result, rfl⟩

/-- C9 witness: a concrete failing run (every page request throws) leaves the
concrete previous store unchanged, and a concrete successful run (an empty
ledger) replaces exactly its key. -/
theorem takeSnapshot_store_spec_witness :
    takeSnapshotModel "base" "0xtok" thrownRespond 1 (.ok 9) (.ok 9) readEx 100 222
      storePrev = storePrev ∧
    takeSnapshotModel "base" "0xtok" errorListRespond 1 (.ok 9) (.ok 9) readEx 100
      222 storePrev =
      publish storePrev (cacheKey "base" "0xtok") (TokenHolderSnapshot.mk 222 9 []) := by
  constructor
  · exact (takeSnapshot_store_spec "base" "0xtok" thrownRespond 1 (.ok 9) (.ok 9)
      readEx 100 222 storePrev).1 (by decide)
  · exact ((takeSnapshot_store_spec "base" "0xtok" errorListRespond 1 (.ok 9) (.ok 9)
      readEx 100 222 storePrev).2 (TokenHolderSnapshot.mk 222 9 [])
      (by simp [takeSnapshotRun, queryAllPages, queryAllPagesGo, errorListRespond,
        accountsNeedingRpc, subgraphBalances, assembleHolders_nil])).1

/-- C5 counterexample: with a previously published snapshot in the store, a
run whose very first page response carries an errors list does not abort: it
publishes a snapshot built from the (empty) accumulated partial list,
replacing the previously published snapshot instead of retaining it. -/
theorem errorList_publish_cex :
    storePrev (cacheKey "base" "0xtok") = some prevSnap ∧
    takeSnapshotModel "base" "0xtok" errorListRespond 1 (.ok 9) (.ok 9) readEx 100
      222 storePrev (cacheKey "base" "0xtok") =
      some (TokenHolderSnapshot.mk 222 9 []) ∧
    prevSnap ≠ TokenHolderSnapshot.mk 222 9 [] := by
  refine ⟨rfl, ?_, by decide⟩
  have hrun : takeSnapshotRun errorListRespond 1 (.ok 9) (.ok 9) readEx 100 222 =
      some (TokenHolderSnapshot.mk 222 9 []) := by
    simp [takeSnapshotRun, queryAllPages, queryAllPagesGo, errorListRespond,
      accountsNeedingRpc, subgraphBalances, assembleHolders_nil]
  simp [takeSnapshotModel, hrun, publish]

/-- C5 amended: a page query that throws aborts the run: nothing is published
and the store keeps the previous snapshot; but a response carrying an errors
list does not abort: pagination stops and returns the accumulated partial
record list (a full first page followed by an errors response yields those
1000 records after two requests), and the run goes on to publish a snapshot
built from that partial list. -/
theorem pagination_failure_spec :
    (∀ (chainName tokenAddress : String)
        (respond : Option Nat → PageResponse AccountRecord) (fuel : Nat)
        (planHead pinHead : Except Unit Nat)
        (readBalance : String → Nat → Except Unit Int)
        (rpcBatchSize now : Nat) (store : Store) (n : Nat),
      queryAllPages respond (fun s => s.atsId) fuel = .thrown n →
      takeSnapshotModel chainName tokenAddress respond fuel planHead pinHead
        readBalance rpcBatchSize now store = store) ∧
    (∀ (items : List AccountRecord),
      items.length = pageSize →
      ∀ (respond : Option Nat → PageResponse AccountRecord),
      respond none = .page items →
      (∀ c, respond (some c) = .errorList) →
      queryAllPages respond (fun s => s.atsId) 2 = .ok items 2 ∧
      ∀ (chainName tokenAddress : String)
        (readBalance : String → Nat → Except Unit Int)
        (rpcBatchSize now head pin : Nat) (store : Store),
        ∃ snap,
          takeSnapshotRun respond 2 (.ok head) (.ok pin) readBalance rpcBatchSize
            now = some snap ∧
          takeSnapshotModel chainName tokenAddress respond 2 (.ok head) (.ok pin)
            readBalance rpcBatchSize now store =
            publish store (cacheKey chainName tokenAddress) snap) := by
  constructor
  · intro chainName tokenAddress respond fuel planHead pinHead readBalance
      rpcBatchSize now store n hq
    simp [takeSnapshotModel, takeSnapshotRun, hq]
  · intro items hlen respond h0 h1
    have hne : items ≠ [] := by
      intro h
      rw [h] at hlen
      simp [pageSize] at hlen
    rcases Option.isSome_iff_exists.mp (List.getLast?_isSome.mpr hne) with ⟨x, hx⟩
    have hq : queryAllPages respond (fun s => s.atsId) 2 = .ok items 2 := by
      simp [queryAllPages, queryAllPagesGo, h0, h1, hlen, hx]
    refine ⟨hq, ?_⟩
    intro chainName tokenAddress readBalance rpcBatchSize now head pin store
    by_cases hneed : (accountsNeedingRpc items head).isEmpty
    · refine ⟨TokenHolderSnapshot.mk now head
          (assembleHolders items (subgraphBalances items head) []), ?_, ?_⟩ <;>
        simp [takeSnapshotModel, takeSnapshotRun, hq, hneed]
    · refine ⟨TokenHolderSnapshot.mk now pin
          (assembleHolders items (subgraphBalances items head)
            (((chunks rpcBatchSize (accountsNeedingRpc items head)).map
              (processBatch readBalance pin)).flatten)), ?_, ?_⟩ <;>
        simp [takeSnapshotModel, takeSnapshotRun, hq, hneed, batchFetchBalances]

/-- C5 amended, witness: the thrown case at the concrete run of
takeSnapshot_store_spec_witness, and the errors-list case at a concrete full
first page of 1000 records. -/
theorem pagination_failure_spec_witness :
    takeSnapshotModel "base" "0xtok" thrownRespond 1 (.ok 9) (.ok 9) readEx 100 222
      storePrev = storePrev ∧
    queryAllPages fullPageRespond (fun s => s.atsId) 2 =
      .ok (List.replicate pageSize discRecord) 2 := by
  constructor
  · exact pagination_failure_spec.1 "base" "0xtok" thrownRespond 1 (.ok 9) (.ok 9)
      readEx 100 222 storePrev 1 (by decide)
  · exact (pagination_failure_spec.2 (List.replicate pageSize discRecord)
      (List.length_replicate pageSize discRecord) fullPageRespond rfl
      (fun c => rfl)).1

/-- Two distinct members of a pairwise list are related one way or the
other. -/
theorem pairwise_mem_rel {α : Type} {R : α → α → Prop} :
    ∀ (l : List α), l.Pairwise R → ∀ a b, a ∈ l → b ∈ l → a ≠ b → R a b ∨ R b a := by
  intro l
  induction l with
  | nil => intro _ a b ha; simp at ha
  | cons x xs ih =>
    intro hp a b ha hb hne
    rcases List.pairwise_cons.mp hp with ⟨hx, hxs⟩
    rcases List.mem_cons.mp ha with rfl | ha2
    · rcases List.mem_cons.mp hb with rfl | hb2
      · exact absurd rfl hne
      · exact Or.inl (hx b hb2)
    · rcases List.mem_cons.mp hb with rfl | hb2
      · exact Or.inr (hx a ha2)
      · exact ih hxs a b ha2 hb2 hne

/-- In a pairwise list, a member not related forward to another member
appears after it: the pair in the other order is a sublist. -/
theorem pair_sublist_of_pairwise_not {α : Type} {R : α → α → Prop} :
    ∀ (l : List α), l.Pairwise R → ∀ a b, a ∈ l → b ∈ l → a ≠ b → ¬ R a b →
      [b, a].Sublist l := by
  intro l
  induction l with
  | nil => intro _ a b ha; simp at ha
  | cons x xs ih =>
    intro hp a b ha hb hne hnr
    rcases List.pairwise_cons.mp hp with ⟨hx, hxs⟩
    rcases List.mem_cons.mp ha with rfl | ha2
    · rcases List.mem_cons.mp hb with rfl | hb2
      · exact absurd rfl hne
      · exact absurd (hx b hb2) hnr
    · rcases List.mem_cons.mp hb with rfl | hb2
      · exact List.Sublist.cons₂ b (List.singleton_sublist.mpr ha2)
      · exact List.Sublist.cons x (ih hxs a b ha2 hb2 hne hnr)

/-- A duplicate-free list cannot contain two distinct elements in both
orders. -/
theorem not_pair_sublist_swap {α : Type} :
    ∀ (l : List α), l.Nodup → ∀ a b : α, a ≠ b →
      [a, b].Sublist l → [b, a].Sublist l → False := by
  intro l
  induction l with
  | nil => intro _ a b _ hab; cases hab
  | cons x xs ih =>
    intro hnd a b hne hab hba
    rcases List.nodup_cons.mp hnd with ⟨hx, hxs⟩
    cases hab with
    | cons _ hab2 =>
      cases hba with
      | cons _ hba2 => exact ih hxs a b hne hab2 hba2
      | cons₂ _ hba2 =>
        exact hx (hab2.mem (by simp))
    | cons₂ _ hab2 =>
      cases hba with
      | cons _ hba2 =>
        exact hx (hba2.mem (by simp))
      | cons₂ _ hba2 =>
        exact hne rfl

/-- holderLe is transitive. -/
theorem holderLe_trans : ∀ (a b c : HolderRecord),
    holderLe a b = true → holderLe b c = true → holderLe a c = true := by
  intro a b c hab hbc
  simp only [holderLe, decide_eq_true_eq] at hab hbc ⊢
  exact le_trans hbc hab

/-- holderLe is total. -/
theorem holderLe_total : ∀ (a b : HolderRecord),
    (holderLe a b || holderLe b a) = true := by
  intro a b
  simp only [holderLe, Bool.or_eq_true, decide_eq_true_eq]
  exact le_total b.balance a.balance

/-- The assembly stage of takeSnapshot produces, from records with strictly
ascending addresses, a holder list sorted by balance descending with ties in
ascending address order (the input order, kept by the stable sort), with
pairwise distinct addresses and no zero balance. -/
theorem assembleHolders_invariants (snapshots : List AccountRecord)
    (haddr : snapshots.Pairwise (fun u v => u.id < v.id))
    (subB rpcB : List (String × Int)) :
    (assembleHolders snapshots subB rpcB).Pairwise (fun a b =>
      b.balance < a.balance ∨ (a.balance = b.balance ∧ a.address < b.address)) ∧
    ((assembleHolders snapshots subB rpcB).map (fun h => h.address)).Nodup ∧
    ∀ h ∈ assembleHolders snapshots subB rpcB, h.balance ≠ 0 := by
  rw [assembleHolders]
  set fm := snapshots.map (fun s => (s.id, getNetFlowRate s)) with hfm
  set filtered := (snapshots.map (mkHolder subB rpcB fm)).filter
    (fun h => decide (h.balance ≠ 0)) with hfiltered
  have hfaddr : filtered.Pairwise (fun a b => a.address < b.address) := by
    refine List.Pairwise.sublist (List.filter_sublist _) ?_
    exact List.pairwise_map.mpr (by simpa [mkHolder] using haddr)
  have hfnd : filtered.Nodup :=
    hfaddr.imp (fun {a b} hlt heq => absurd (heq ▸ hlt) (lt_irrefl _))
  have hperm : (sortHolders filtered).Perm filtered := List.mergeSort_perm filtered _
  have houtnd : (sortHolders filtered).Nodup := hfnd.perm hperm.symm
  have hsorted : (sortHolders filtered).Pairwise (fun a b => holderLe a b = true) :=
    List.sorted_mergeSort holderLe_trans holderLe_total filtered
  refine ⟨?_, ?_, ?_⟩
  · rw [List.pairwise_iff_forall_sublist]
    intro a b hsub
    have hle : holderLe a b = true :=
      List.pairwise_iff_forall_sublist.mp hsorted hsub
    have hble : b.balance ≤ a.balance := by simpa [holderLe] using hle
    rcases lt_or_eq_of_le hble with hlt | heqbal
    · exact Or.inl hlt
    · have hamem : a ∈ filtered :=
        hperm.mem_iff.mp (hsub.mem (by simp))
      have hbmem : b ∈ filtered :=
        hperm.mem_iff.mp (hsub.mem (by simp))
      have hne : a ≠ b := by
        intro h
        subst h
        have : ([a, a] : List HolderRecord).Nodup :=
          List.Nodup.sublist hsub houtnd
        simp at this
      have haddrne : a.address ≠ b.address := by
        intro h
        have hndaddr : (filtered.map (fun x => x.address)).Nodup := by
          have hpm : List.Pairwise (fun x y => x ≠ y)
              (filtered.map (fun x => x.address)) :=
            List.pairwise_map.mpr (hfaddr.imp (fun {x y} hlt => ne_of_lt hlt))
          exact hpm
        exact hne (List.inj_on_of_nodup_map hndaddr hamem hbmem h)
      rcases pairwise_mem_rel filtered hfaddr a b hamem hbmem hne with hha | hhb
      · exact Or.inr ⟨heqbal.symm, hha⟩
      · exfalso
        have hba : [b, a].Sublist filtered :=
          pair_sublist_of_pairwise_not filtered hfaddr a b hamem hbmem hne
            (fun hcon => absurd hcon (not_lt_of_gt hhb))
        have hleba : holderLe b a = true := by
          simp [holderLe, heqbal.symm.le]
        have hbaout : [b, a].Sublist (sortHolders filtered) :=
          List.pair_sublist_mergeSort holderLe_trans holderLe_total hleba hba
        exact not_pair_sublist_swap (sortHolders filtered) houtnd a b hne hsub hbaout
  · have hmap : (filtered.map (fun h => h.address)).Nodup := by
      have hpm : List.Pairwise (fun x y => x ≠ y)
          (filtered.map (fun h => h.address)) :=
        List.pairwise_map.mpr (hfaddr.imp (fun {x y} hlt => ne_of_lt hlt))
      exact hpm
    exact hmap.perm (hperm.map (fun h => h.address)).symm
  · intro h hmem
    have : h ∈ filtered := hperm.mem_iff.mp hmem
    have := List.mem_filter.mp this
    simpa using this.2

/-- C2: every snapshot published by a run over a well-formed ledger (records
strictly ascending both in ledger id and in account address, as the
account-token ids of one token are) has its holder sequence sorted by balance
descending with ties broken by address ascending (the stable sort keeps the
ascending input order), no address twice, and no holder with balance "0". -/
theorem published_snapshot_invariants (ledger : List AccountRecord)
    (hats : ledger.Pairwise (fun a b => a.atsId < b.atsId))
    (haddr : ledger.Pairwise (fun a b => a.id < b.id))
    (fuel : Nat) (hfuel : ledger.length / pageSize < fuel)
    (planHead pinHead : Except Unit Nat)
    (readBalance : String → Nat → Except Unit Int) (rpcBatchSize now : Nat)
    (snap : TokenHolderSnapshot)
    (hrun : takeSnapshotRun (subgraphRespond ledger) fuel planHead pinHead
      readBalance rpcBatchSize now = some snap) :
    snap.holders.Pairwise (fun a b =>
      b.balance < a.balance ∨ (a.balance = b.balance ∧ a.address < b.address)) ∧
    (snap.holders.map (fun h => h.address)).Nodup ∧
    ∀ h ∈ snap.holders, h.balance ≠ 0 := by
  have hmats : (ledger.map ledgerView).Pairwise (fun a b => a.atsId < b.atsId) :=
    List.pairwise_map.mpr (by simpa [ledgerView] using hats)
  have hmaddr : (ledger.map ledgerView).Pairwise (fun a b => a.id < b.id) :=
    List.pairwise_map.mpr (by simpa [ledgerView] using haddr)
  have hq : queryAllPages (subgraphRespond ledger) (fun s => s.atsId) fuel =
      .ok (ledger.map ledgerView)
        ((ledger.map ledgerView).length / pageSize + 1) := by
    have h := queryAllPagesGo_ledger (fun s => s.atsId) (ledger.map ledgerView)
      hmats fuel 0 none [] 0 (by simp [afterCursor]) (by simpa using hfuel)
    simpa [queryAllPages, subgraphRespond] using h
  cases hplan : planHead with
  | error e => simp [takeSnapshotRun, hq, hplan] at hrun
  | ok head =>
    by_cases hneed : (accountsNeedingRpc (ledger.map ledgerView) head).isEmpty
    · have hv : takeSnapshotRun (subgraphRespond ledger) fuel planHead pinHead
          readBalance rpcBatchSize now = some (TokenHolderSnapshot.mk now head
            (assembleHolders (ledger.map ledgerView)
              (subgraphBalances (ledger.map ledgerView) head) [])) := by
        simp [takeSnapshotRun, hq, hplan, hneed]
      rw [hv] at hrun
      rw [← Option.some.inj hrun]
      exact assembleHolders_invariants _ hmaddr _ _
    · cases hbf : (batchFetchBalances pinHead readBalance
          (accountsNeedingRpc (ledger.map ledgerView) head) rpcBatchSize).1 with
      | error e => simp [takeSnapshotRun, hq, hplan, hneed, hbf] at hrun
      | ok result =>
        obtain ⟨rb, bn⟩ := result
        have hv : takeSnapshotRun (subgraphRespond ledger) fuel planHead pinHead
            readBalance rpcBatchSize now = some (TokenHolderSnapshot.mk now bn
              (assembleHolders (ledger.map ledgerView)
                (subgraphBalances (ledger.map ledgerView) head) rb)) := by
          simp [takeSnapshotRun, hq, hplan, hneed, hbf]
        rw [hv] at hrun
        rw [← Option.some.inj hrun]
        exact assembleHolders_invariants _ hmaddr _ _

/-- C2 witness: the one-record ledger of discRecord published at chain head
10; the published holder list is the one holder of address 0xdisc with
balance 42, which is sorted, duplicate free and zero free. -/
theorem published_snapshot_invariants_witness :
    ([HolderRecord.mk "0xdisc" 42 0].Pairwise (fun a b =>
      b.balance < a.balance ∨ (a.balance = b.balance ∧ a.address < b.address)) ∧
    ([HolderRecord.mk "0xdisc" 42 0].map (fun h => h.address)).Nodup ∧
    ∀ h ∈ [HolderRecord.mk "0xdisc" 42 0], h.balance ≠ 0) := by
  have hrun : takeSnapshotRun (subgraphRespond [discRecord]) 1 (.ok 10) (.ok 10)
      readEx 100 333 =
      some (TokenHolderSnapshot.mk 333 10 [HolderRecord.mk "0xdisc" 42 0]) := by
    simp [takeSnapshotRun, queryAllPages, queryAllPagesGo, subgraphRespond,
      ledgerRespond, afterCursor, ledgerView, discRecord, pageSize,
      accountsNeedingRpc, isTrusted, subgraphBalances, assembleHolders,
      sortHolders, mkHolder, combinedLookup, getNetFlowRate,
      List.mergeSort_singleton, List.lookup]
  exact published_snapshot_invariants [discRecord] (by simp) (by simp) 1
    (by norm_num [pageSize]) (.ok 10) (.ok 10) readEx 100 333
    (TokenHolderSnapshot.mk 333 10 [HolderRecord.mk "0xdisc" 42 0]) hrun

end SupertokenApi
